import Mathlib

/-!
Verification of the aistore mountpath registry and quantity parser.

Part A embeds `ParseQuantity` from the `cos` package (source present).
Part B models the `fs.MountedFS` mountpath registry; its implementation
file is not in the sample (only its test suite is), so the registry
definitions are modelled from the specification, as noted on each one.
-/

set_option maxRecDepth 8192

namespace AIStore

/- ### Part A: `ParseQuantity` (package cos) -/

/-- `strings.ReplaceAll(quantity, " ", "")`: drop every ASCII space. -/
def stripSpaces (s : String) : String :=
  ⟨s.toList.filter (fun c => c ≠ ' ')⟩

/-- Numeric value of a string of decimal digits (most significant first). -/
def digitsToNat (cs : List Char) : Nat :=
  cs.foldl (fun acc c => 10 * acc + (c.toNat - '0'.toNat)) 0

/-- Largest value of Go's 64-bit `int`. -/
def int64Max : Nat := 2 ^ 63 - 1

/-- `strconv.Atoi` restricted to the all-digit, sign-free strings produced by
the digit scan in `ParseQuantity`: the empty string is an error, and a value
beyond the host `int` range is a range error (Go returns `ErrRange`, which
`ParseQuantity` folds into its usage error). -/
def goAtoi (cs : List Char) : Option Nat :=
  if cs = [] then none
  else if digitsToNat cs ≤ int64Max then some (digitsToNat cs) else none

def QuantityPercent : String := "percent"

def QuantityBytes : String := "bytes"

/-- The error values surfaced by `ParseQuantity` and by `ParseSize`:
`ErrQuantityUsage`, `errQuantityNonNegative`, `ErrQuantityPercent`,
`ErrQuantityBytes`, and a catch-all for other `ParseSize` failures. -/
inductive QuantityError
  | usage
  | nonNegative
  | percent
  | bytes
  | sizeOther
deriving Repr, DecidableEq

/-- Go struct `ParsedQuantity{Type string; Value uint64}`
(the field `Type` is renamed `Type'`, a reserved word in Lean). -/
structure ParsedQuantity where
  Type' : String
  Value : Nat
deriving Repr, DecidableEq

/-- `ParseQuantity` from the `cos` package. `parseSize` abstracts
`ParseSize(quantity, UnitsIEC)`, whose definition is outside the sample; it is
only reached when the suffix after the digits is nonempty and differs from
`"%"`. The `value < 0` check after `Atoi` is omitted: the scanned string is
all digits, so `Atoi` never returns a negative value there. -/
def ParseQuantity (parseSize : String → Except QuantityError Int) (quantity0 : String) :
    ParsedQuantity × Option QuantityError :=
  let quantity := stripSpaces quantity0
  let cs := quantity.toList
  let number := cs.takeWhile Char.isDigit
  match goAtoi number with
  | none => (⟨"", 0⟩, some .usage)
  | some value =>
    let parsedQ : ParsedQuantity := ⟨"", value⟩
    if cs.length ≤ number.length then (parsedQ, some .usage)
    else if cs.drop number.length = ['%'] then
      let pq : ParsedQuantity := ⟨QuantityPercent, value⟩
      if value = 0 ∨ 100 ≤ value then (pq, some .percent) else (pq, none)
    else
      match parseSize quantity with
      | .error e => (parsedQ, some e)
      | .ok v =>
        if v < 0 then (parsedQ, some .bytes)
        else (⟨QuantityBytes, v.toNat⟩, none)

/-- A stand-in `ParseSize` used only to instantiate theorems at concrete
inputs whose suffix is `"%"` or empty, where `ParseSize` is never consulted. -/
def szStub : String → Except QuantityError Int := fun _ => .error .sizeOther

/- ### Part B: the mountpath registry (`fs.MountedFS`) -/

/-- Modelled from the spec: the two-sample rolling window of one scalar
metric — `Prev` holds the sample immediately preceding `Curr`, or zero if
only one sample has ever been written. `float32` is modelled by `ℚ` (the
registry only stores and moves samples, never computes with them). -/
structure Iostat where
  Prev : Rat
  Curr : Rat
deriving Repr, DecidableEq

def Iostat.zero : Iostat := ⟨0, 0⟩

/-- Modelled from the spec: the I/O-Stat Cell owned by one mountpath record,
holding the `util` and `quel` (queue-length) windows. -/
structure IostatCell where
  util : Iostat
  quel : Iostat
deriving Repr, DecidableEq

def IostatCell.zero : IostatCell := ⟨.zero, .zero⟩

/-- Modelled from the spec: `set(utilNew, queueNew)` assigns
`prev := curr; curr := new` for each of the two metrics. -/
def IostatCell.set (c : IostatCell) (u q : Rat) : IostatCell :=
  ⟨⟨c.util.Curr, u⟩, ⟨c.quel.Curr, q⟩⟩

/-- Modelled from the spec: the Filesystem Identity Probe and the stat call
inside `Add`, abstracted as a function model of the live filesystem:
`isDir p` says whether `p` exists and is a directory, and `fsid p` is the
stable identifier of the filesystem containing `p` (an opaque token,
modelled as `Nat`; meaningful only when `isDir p`). -/
structure FileSys where
  isDir : String → Bool
  fsid : String → Nat

/-- Modelled from the spec: a Mountpath Record — cleaned path, filesystem
identifier, and a handle (heap index) to its rolling I/O-stat cell. The
cell heap lives in the registry state; sharing a `cell` index models Go's
sharing of the cell by pointer. -/
structure MountpathInfo where
  path : String
  fsid : Nat
  cell : Nat
deriving Repr, DecidableEq

/-- Modelled from the spec: registry state. `available`/`disabled` are the
two sides of the published snapshot (association lists keyed by `path`);
`cells` is the heap of I/O-Stat Cells addressed by the records' `cell`
handles; `nextCell` allocates fresh handles; `checkFsID` is the toggle for
`fsid` uniqueness enforcement. -/
structure MountedFS where
  available : List MountpathInfo
  disabled : List MountpathInfo
  cells : List (Nat × IostatCell)
  nextCell : Nat
  checkFsID : Bool
deriving Repr, DecidableEq

def NewMountedFS : MountedFS := ⟨[], [], [], 0, true⟩

/-- Modelled from the spec: the error taxonomy of §7. -/
inductive MfsError
  | invalidPath
  | pathNotFound
  | alreadyRegistered
  | duplicateFsID
  | notRegistered
deriving Repr, DecidableEq

/-- Split a raw path on `/` into its nonempty segments, dropping `.`. -/
def rawSegs (cs : List Char) : List (List Char) :=
  cs.foldr
    (fun c acc =>
      if c = '/' then [] :: acc
      else
        match acc with
        | [] => [[c]]
        | s :: rest => (c :: s) :: rest)
    [[]]

/-- Modelled from the spec: path canonicalization — the `/`-separated
segments of the path with empty and `.` segments dropped and `..` resolved
against the root. -/
def pathSegs (p : String) : List String :=
  (((rawSegs p.toList).map fun cs => String.mk cs).filter
      (fun s => s ≠ "" && s ≠ ".")).foldl
    (fun acc s => if s = ".." then acc.dropLast else acc ++ [s]) []

/-- Modelled from the spec: the canonical (cleaned, absolute) form of a
path, used as the record key. -/
def canonicalize (p : String) : String :=
  "/" ++ String.intercalate "/" (pathSegs p)

/-- The reserved bucket-type subtree names. -/
def reservedNames : List String := ["local", "cloud"]

/-- Modelled from the spec: the purely lexical reserved-path filter —
canonicalize, then scan the path segments against the reserved-name set
(`local`, `cloud`) before any I/O. -/
def hasReservedSeg (p : String) : Bool :=
  (pathSegs p).any (fun s => reservedNames.contains s)

/-- Does either side hold a record keyed by (already canonical) path `p`? -/
def hasPath (l : List MountpathInfo) (p : String) : Bool :=
  l.any (fun r => p == r.path)

def findPath (l : List MountpathInfo) (p : String) : Option MountpathInfo :=
  l.find? (fun r => p == r.path)

/-- Remove the record keyed by `p` (a map `delete`). -/
def erasePath (l : List MountpathInfo) (p : String) : List MountpathInfo :=
  l.eraseP (fun r => p == r.path)

/-- Modelled from the spec: `Add` — canonicalize; reject reserved paths
before any filesystem probe; stat; reject a path already on either side;
enforce `fsid` uniqueness against `available` when enabled; otherwise
insert a fresh record (with a fresh zeroed I/O-Stat Cell) into `available`.
Every failing branch returns the state unchanged. -/
def MountedFS.Add (m : MountedFS) (fs : FileSys) (mpath : String) :
    MountedFS × Option MfsError :=
  if hasReservedSeg mpath then (m, some .invalidPath)
  else if fs.isDir (canonicalize mpath) = false then (m, some .pathNotFound)
  else if hasPath m.available (canonicalize mpath) ||
      hasPath m.disabled (canonicalize mpath) then
    (m, some .alreadyRegistered)
  else if m.checkFsID &&
      m.available.any (fun r => r.fsid == fs.fsid (canonicalize mpath)) then
    (m, some .duplicateFsID)
  else
    ({ m with
        available :=
          ⟨canonicalize mpath, fs.fsid (canonicalize mpath), m.nextCell⟩ ::
            m.available
        cells := (m.nextCell, IostatCell.zero) :: m.cells
        nextCell := m.nextCell + 1 },
      none)

/-- Modelled from the spec: `Remove` — delete from `available` if present
there, else from `disabled`, else fail. (The cell heap retains released
cells, modelling that collection is deferred to the garbage collector.) -/
def MountedFS.Remove (m : MountedFS) (p : String) : MountedFS × Option MfsError :=
  if hasPath m.available p then
    ({ m with available := erasePath m.available p }, none)
  else if hasPath m.disabled p then
    ({ m with disabled := erasePath m.disabled p }, none)
  else (m, some .notRegistered)

/-- Modelled from the spec: `Disable` — move from `available` to `disabled`
→ `(true, true)`; already disabled → `(false, true)`; absent →
`(false, false)`. The record is re-linked, not rebuilt. -/
def MountedFS.Disable (m : MountedFS) (p : String) : MountedFS × Bool × Bool :=
  match findPath m.available p with
  | some r =>
    ({ m with
        available := erasePath m.available p
        disabled := r :: m.disabled },
      true, true)
  | none => if hasPath m.disabled p then (m, false, true) else (m, false, false)

/-- Modelled from the spec: `Enable`, symmetric to `Disable`. The `fsid`
uniqueness check is not re-run. -/
def MountedFS.Enable (m : MountedFS) (p : String) : MountedFS × Bool × Bool :=
  match findPath m.disabled p with
  | some r =>
    ({ m with
        disabled := erasePath m.disabled p
        available := r :: m.available },
      true, true)
  | none => if hasPath m.available p then (m, false, true) else (m, false, false)

/-- Modelled from the spec: `Get` returns the current snapshot pair. -/
def MountedFS.Get (m : MountedFS) : List MountpathInfo × List MountpathInfo :=
  (m.available, m.disabled)

def MountedFS.DisableFsIDCheck (m : MountedFS) : MountedFS :=
  { m with checkFsID := false }

/-- Update the cell of the available record keyed `p` (if any) with one
paired sample; other cells are untouched. -/
def updateOne (m : MountedFS) (p : String) (u q : Rat) : MountedFS :=
  match findPath m.available p with
  | none => m
  | some r =>
    { m with
        cells := m.cells.map fun e =>
          if e.1 = r.cell then (e.1, e.2.set u q) else e }

/-- Modelled from the spec: `SetIOstats` — for every path of the input maps
that resolves to an available record, `set` that record's cell with the
paired samples; paths present in only one map, in `disabled` only, or
absent are skipped. -/
def MountedFS.SetIOstats (m : MountedFS) (dutil dquel : List (String × Rat)) :
    MountedFS :=
  dutil.foldl
    (fun acc e =>
      match dquel.lookup e.1 with
      | some q => updateOne acc e.1 e.2 q
      | none => acc)
    m

/-- Modelled from the spec: `GetIOstats` on a record handle — read the
record's cell through the current heap (a zeroed pair for a dangling
handle, which a record published by `Add` never has). -/
def MountedFS.GetIOstats (m : MountedFS) (r : MountpathInfo) : Iostat × Iostat :=
  match m.cells.lookup r.cell with
  | some c => (c.util, c.quel)
  | none => (.zero, .zero)

/-- `|available| + |disabled|`: the total record count of the registry. -/
def MountedFS.total (m : MountedFS) : Nat :=
  m.available.length + m.disabled.length

/-- One administrative or telemetry operation against the registry. -/
inductive Op
  | add (fs : FileSys) (p : String)
  | remove (p : String)
  | enable (p : String)
  | disable (p : String)
  | setIOstats (dutil dquel : List (String × Rat))

def applyOp (m : MountedFS) : Op → MountedFS
  | .add fs p => (m.Add fs p).1
  | .remove p => (m.Remove p).1
  | .enable p => (m.Enable p).1
  | .disable p => (m.Disable p).1
  | .setIOstats du dq => m.SetIOstats du dq

/-- Run a sequence of operations from a starting state. -/
def run (m : MountedFS) (ops : List Op) : MountedFS :=
  ops.foldl applyOp m

/-- Number of successful `Add`s along a run. -/
def succAdds : MountedFS → List Op → Nat
  | _, [] => 0
  | m, op :: ops =>
    (match op with
      | .add fs p => if (m.Add fs p).2 = none then 1 else 0
      | _ => 0) +
      succAdds (applyOp m op) ops

/-- Number of successful `Remove`s along a run. -/
def succRems : MountedFS → List Op → Nat
  | _, [] => 0
  | m, op :: ops =>
    (match op with
      | .remove p => if (m.Remove p).2 = none then 1 else 0
      | _ => 0) +
      succRems (applyOp m op) ops

/-- The paths keying a snapshot side. -/
def pathsOf (l : List MountpathInfo) : List String :=
  l.map (fun r => r.path)

/-- Well-formedness: no path occurs twice across the two sides. -/
def Wf (m : MountedFS) : Prop :=
  (pathsOf m.available ++ pathsOf m.disabled).Nodup

/-- A concrete filesystem model for instantiating theorems: `/tmp`, `/` and
`/dev/null` exist; `/tmp` and `/` share a filesystem, `/dev/null` has its
own (as the test suite assumes). -/
def tmpFS : FileSys :=
  ⟨fun p => p == "/tmp" || p == "/" || p == "/dev/null",
   fun p => if p == "/dev/null" then 2 else 1⟩

/-- A filesystem model on which no path exists, for showing that the
reserved-path filter fires before any stat. -/
def noFS : FileSys := ⟨fun _ => false, fun _ => 0⟩

/-- The registry right after a successful `Add("/tmp")`. -/
def mfsTmp : MountedFS := (NewMountedFS.Add tmpFS "/tmp").1

/- ### Helper lemmas -/

theorem hasPath_iff {l : List MountpathInfo} {p : String} :
    hasPath l p = true ↔ p ∈ pathsOf l := by
  rw [hasPath, List.any_eq_true, pathsOf]
  constructor
  · rintro ⟨r, hr, he⟩
    rw [beq_iff_eq] at he
    exact he ▸ List.mem_map_of_mem _ hr
  · intro hm
    obtain ⟨r, hr, he⟩ := List.mem_map.1 hm
    exact ⟨r, hr, by rw [beq_iff_eq, he]⟩

theorem not_mem_of_hasPath_false {l : List MountpathInfo} {p : String}
    (h : hasPath l p = false) : p ∉ pathsOf l := by
  intro hm
  simp [hasPath_iff.2 hm] at h

theorem hasPath_of_mem {l : List MountpathInfo} {p : String}
    (h : p ∈ pathsOf l) : hasPath l p = true :=
  hasPath_iff.2 h

theorem findPath_some {l : List MountpathInfo} {p : String} {r : MountpathInfo}
    (h : findPath l p = some r) : r ∈ l ∧ r.path = p := by
  refine ⟨List.mem_of_find?_eq_some h, ?_⟩
  have := List.find?_some h
  simp at this
  exact this.symm

theorem findPath_eq_none {l : List MountpathInfo} {p : String}
    (h : hasPath l p = false) : findPath l p = none := by
  rw [findPath, List.find?_eq_none]
  intro r hr hpr
  have hp : p ∈ pathsOf l := by
    rw [beq_iff_eq] at hpr
    exact hpr ▸ List.mem_map_of_mem _ hr
  exact not_mem_of_hasPath_false h hp

theorem exists_findPath {l : List MountpathInfo} {p : String}
    (h : hasPath l p = true) : ∃ r, findPath l p = some r := by
  have : (findPath l p).isSome = true := by
    rw [findPath, List.find?_isSome]
    simpa [hasPath, List.any_eq_true] using h
  exact Option.isSome_iff_exists.1 this

theorem hasPath_of_findPath_some {l : List MountpathInfo} {p : String}
    {r : MountpathInfo} (h : findPath l p = some r) : hasPath l p = true := by
  obtain ⟨hr, hp⟩ := findPath_some h
  exact hasPath_of_mem (by simpa [pathsOf, hp] using List.mem_map_of_mem (fun x => x.path) hr)

theorem pathsOf_erasePath (l : List MountpathInfo) (p : String) :
    pathsOf (erasePath l p) = (pathsOf l).erase p := by
  rw [pathsOf, pathsOf, erasePath, List.erase_eq_eraseP, List.eraseP_map]
  rfl

theorem length_erasePath {l : List MountpathInfo} {p : String}
    (h : hasPath l p = true) : (erasePath l p).length = l.length - 1 := by
  obtain ⟨r, hr, hpr⟩ := List.any_eq_true.1 h
  exact List.length_eraseP_of_mem hr hpr

theorem length_pos_of_hasPath {l : List MountpathInfo} {p : String}
    (h : hasPath l p = true) : 0 < l.length := by
  obtain ⟨r, hr, -⟩ := List.any_eq_true.1 h
  exact List.length_pos_of_mem hr

theorem updateOne_maps (m : MountedFS) (p : String) (u q : Rat) :
    (updateOne m p u q).available = m.available ∧
      (updateOne m p u q).disabled = m.disabled ∧
      (updateOne m p u q).checkFsID = m.checkFsID := by
  unfold updateOne
  cases findPath m.available p <;> exact ⟨rfl, rfl, rfl⟩

theorem setIOstats_cons (m : MountedFS) (e : String × Rat)
    (du dq : List (String × Rat)) :
    m.SetIOstats (e :: du) dq =
      (match dq.lookup e.1 with
        | some q => updateOne m e.1 e.2 q
        | none => m).SetIOstats du dq := rfl

theorem setIOstats_maps (du dq : List (String × Rat)) (m : MountedFS) :
    (m.SetIOstats du dq).available = m.available ∧
      (m.SetIOstats du dq).disabled = m.disabled ∧
      (m.SetIOstats du dq).checkFsID = m.checkFsID := by
  induction du generalizing m with
  | nil => exact ⟨rfl, rfl, rfl⟩
  | cons e du ih =>
    rw [setIOstats_cons]
    cases dq.lookup e.1 with
    | none => exact ih m
    | some q =>
      obtain ⟨h1, h2, h3⟩ := ih (updateOne m e.1 e.2 q)
      obtain ⟨g1, g2, g3⟩ := updateOne_maps m e.1 e.2 q
      exact ⟨h1.trans g1, h2.trans g2, h3.trans g3⟩

theorem lookup_map_update {β : Type} (l : List (Nat × β)) (c : Nat) (g : β → β) :
    List.lookup c (l.map fun e => if e.1 = c then (e.1, g e.2) else e) =
      (List.lookup c l).map g := by
  induction l with
  | nil => rfl
  | cons e l ih =>
    obtain ⟨k, v⟩ := e
    by_cases h : k = c
    · subst h
      rw [List.map_cons, if_pos (show (k, v).1 = k from rfl)]
      simp [List.lookup, ih]
    · have hck : (c == k) = false := by simpa using Ne.symm h
      rw [List.map_cons, if_neg (show ¬(k, v).1 = c from h)]
      simp [List.lookup, hck, ih]

theorem updateOne_lookup {m : MountedFS} {p : String} {r : MountpathInfo}
    (h : findPath m.available p = some r) (u q : Rat) :
    List.lookup r.cell (updateOne m p u q).cells =
      (List.lookup r.cell m.cells).map fun c => c.set u q := by
  unfold updateOne
  rw [h]
  exact lookup_map_update m.cells r.cell fun c => c.set u q

theorem setIOstats_single (m : MountedFS) (p : String) (u q : Rat) :
    m.SetIOstats [(p, u)] [(p, q)] = updateOne m p u q := by
  rw [setIOstats_cons]
  simp [List.lookup]
  rfl

theorem set_step {m : MountedFS} {p : String} {r : MountpathInfo}
    {c : IostatCell} (h1 : findPath m.available p = some r)
    (h2 : List.lookup r.cell m.cells = some c) (u q : Rat) :
    (m.SetIOstats [(p, u)] [(p, q)]).available = m.available ∧
      (m.SetIOstats [(p, u)] [(p, q)]).disabled = m.disabled ∧
      List.lookup r.cell (m.SetIOstats [(p, u)] [(p, q)]).cells =
        some (c.set u q) ∧
      (m.SetIOstats [(p, u)] [(p, q)]).GetIOstats r =
        (⟨c.util.Curr, u⟩, ⟨c.quel.Curr, q⟩) := by
  rw [setIOstats_single]
  obtain ⟨g1, g2, -⟩ := updateOne_maps m p u q
  have hl : List.lookup r.cell (updateOne m p u q).cells = some (c.set u q) := by
    rw [updateOne_lookup h1, h2]
    rfl
  refine ⟨g1, g2, hl, ?_⟩
  rw [MountedFS.GetIOstats, hl]
  rfl

theorem add_cases (m : MountedFS) (fs : FileSys) (p : String) :
    ((∃ e, (m.Add fs p).2 = some e) ∧ (m.Add fs p).1 = m) ∨
      ((m.Add fs p).2 = none ∧
        hasPath m.available (canonicalize p) = false ∧
        hasPath m.disabled (canonicalize p) = false ∧
        (m.Add fs p).1 =
          { m with
              available :=
                ⟨canonicalize p, fs.fsid (canonicalize p), m.nextCell⟩ ::
                  m.available
              cells := (m.nextCell, IostatCell.zero) :: m.cells
              nextCell := m.nextCell + 1 }) := by
  unfold MountedFS.Add
  split_ifs with h1 h2 h3 h4
  · exact .inl ⟨⟨_, rfl⟩, rfl⟩
  · exact .inl ⟨⟨_, rfl⟩, rfl⟩
  · exact .inl ⟨⟨_, rfl⟩, rfl⟩
  · exact .inl ⟨⟨_, rfl⟩, rfl⟩
  · simp only [Bool.or_eq_true, not_or, Bool.not_eq_true] at h3
    exact .inr ⟨rfl, h3.1, h3.2, rfl⟩

theorem add_fail {m : MountedFS} {fs : FileSys} {p : String} {e : MfsError}
    (h : (m.Add fs p).2 = some e) : (m.Add fs p).1 = m := by
  rcases add_cases m fs p with ⟨-, h1⟩ | ⟨h2, -⟩
  · exact h1
  · rw [h] at h2
    cases h2

theorem add_checkFsID (m : MountedFS) (fs : FileSys) (p : String) :
    (m.Add fs p).1.checkFsID = m.checkFsID := by
  rcases add_cases m fs p with ⟨-, h1⟩ | ⟨-, -, -, h1⟩ <;> rw [h1]

theorem remove_avail {m : MountedFS} {p : String}
    (h : hasPath m.available p = true) :
    m.Remove p = ({ m with available := erasePath m.available p }, none) := by
  unfold MountedFS.Remove
  rw [if_pos h]

theorem remove_disabled {m : MountedFS} {p : String}
    (h1 : hasPath m.available p = false) (h2 : hasPath m.disabled p = true) :
    m.Remove p = ({ m with disabled := erasePath m.disabled p }, none) := by
  unfold MountedFS.Remove
  rw [if_neg (by simp [h1]), if_pos h2]

theorem remove_absent {m : MountedFS} {p : String}
    (h1 : hasPath m.available p = false) (h2 : hasPath m.disabled p = false) :
    m.Remove p = (m, some .notRegistered) := by
  unfold MountedFS.Remove
  rw [if_neg (by simp [h1]), if_neg (by simp [h2])]

theorem disable_avail {m : MountedFS} {p : String} {r : MountpathInfo}
    (h : findPath m.available p = some r) :
    m.Disable p =
      ({ m with
          available := erasePath m.available p
          disabled := r :: m.disabled },
        true, true) := by
  unfold MountedFS.Disable
  rw [h]

theorem disable_unavail {m : MountedFS} {p : String}
    (h : hasPath m.available p = false) :
    m.Disable p = (m, false, hasPath m.disabled p) := by
  unfold MountedFS.Disable
  rw [findPath_eq_none h]
  cases hd : hasPath m.disabled p <;> rfl

theorem enable_disabled {m : MountedFS} {p : String} {r : MountpathInfo}
    (h : findPath m.disabled p = some r) :
    m.Enable p =
      ({ m with
          disabled := erasePath m.disabled p
          available := r :: m.available },
        true, true) := by
  unfold MountedFS.Enable
  rw [h]

theorem enable_undisabled {m : MountedFS} {p : String}
    (h : hasPath m.disabled p = false) :
    m.Enable p = (m, false, hasPath m.available p) := by
  unfold MountedFS.Enable
  rw [findPath_eq_none h]
  cases hd : hasPath m.available p <;> rfl

theorem pathsOf_cons (r : MountpathInfo) (l : List MountpathInfo) :
    pathsOf (r :: l) = r.path :: pathsOf l := rfl

theorem wf_new : Wf NewMountedFS := by
  simp [Wf, NewMountedFS, pathsOf]

theorem wf_add {m : MountedFS} (hw : Wf m) (fs : FileSys) (p : String) :
    Wf (m.Add fs p).1 := by
  rcases add_cases m fs p with ⟨-, h1⟩ | ⟨-, ha, hd, h1⟩
  · rw [h1]; exact hw
  · rw [h1]
    unfold Wf at hw ⊢
    show (pathsOf (_ :: m.available) ++ pathsOf m.disabled).Nodup
    rw [pathsOf_cons, List.cons_append]
    refine List.nodup_cons.2 ⟨?_, hw⟩
    intro hc
    rcases List.mem_append.1 hc with hmem | hmem
    · exact not_mem_of_hasPath_false ha hmem
    · exact not_mem_of_hasPath_false hd hmem

theorem wf_remove {m : MountedFS} (hw : Wf m) (p : String) :
    Wf (m.Remove p).1 := by
  by_cases h1 : hasPath m.available p = true
  · rw [remove_avail h1]
    unfold Wf at hw ⊢
    show (pathsOf (erasePath m.available p) ++ pathsOf m.disabled).Nodup
    rw [pathsOf_erasePath]
    exact hw.sublist (((pathsOf m.available).erase_sublist p).append_right _)
  · have h1' : hasPath m.available p = false := by simpa using h1
    by_cases h2 : hasPath m.disabled p = true
    · rw [remove_disabled h1' h2]
      unfold Wf at hw ⊢
      show (pathsOf m.available ++ pathsOf (erasePath m.disabled p)).Nodup
      rw [pathsOf_erasePath]
      exact hw.sublist (((pathsOf m.disabled).erase_sublist p).append_left _)
    · rw [remove_absent h1' (by simpa using h2)]
      exact hw

theorem wf_disable {m : MountedFS} (hw : Wf m) (p : String) :
    Wf (m.Disable p).1 := by
  by_cases h1 : hasPath m.available p = true
  · obtain ⟨r, hr⟩ := exists_findPath h1
    obtain ⟨-, hrp⟩ := findPath_some hr
    rw [disable_avail hr]
    unfold Wf at hw ⊢
    show (pathsOf (erasePath m.available p) ++ pathsOf (r :: m.disabled)).Nodup
    rw [pathsOf_erasePath, pathsOf_cons, hrp]
    obtain ⟨hA, hD, hdisj⟩ := List.nodup_append.1 hw
    have hpA : p ∈ pathsOf m.available := hasPath_iff.1 h1
    have hpD : p ∉ pathsOf m.disabled := hdisj hpA
    refine List.nodup_append.2 ⟨hA.erase p, List.nodup_cons.2 ⟨hpD, hD⟩, ?_⟩
    intro x hx hmem
    have hxA : x ∈ pathsOf m.available := List.mem_of_mem_erase hx
    rcases List.mem_cons.1 hmem with he | hm
    · subst he; exact hA.not_mem_erase hx
    · exact hdisj hxA hm
  · rw [disable_unavail (by simpa using h1)]
    exact hw

theorem wf_enable {m : MountedFS} (hw : Wf m) (p : String) :
    Wf (m.Enable p).1 := by
  by_cases h1 : hasPath m.disabled p = true
  · obtain ⟨r, hr⟩ := exists_findPath h1
    obtain ⟨-, hrp⟩ := findPath_some hr
    rw [enable_disabled hr]
    unfold Wf at hw ⊢
    show (pathsOf (r :: m.available) ++ pathsOf (erasePath m.disabled p)).Nodup
    rw [pathsOf_erasePath, pathsOf_cons, hrp, List.cons_append]
    obtain ⟨hA, hD, hdisj⟩ := List.nodup_append.1 hw
    have hpD : p ∈ pathsOf m.disabled := hasPath_iff.1 h1
    have hpA : p ∉ pathsOf m.available := fun hmem => hdisj hmem hpD
    refine List.nodup_cons.2 ⟨?_, ?_⟩
    · intro hc
      rcases List.mem_append.1 hc with hmem | hmem
      · exact hpA hmem
      · exact hD.not_mem_erase hmem
    · refine List.nodup_append.2 ⟨hA, hD.erase p, ?_⟩
      intro x hxA hxD
      exact hdisj hxA (List.mem_of_mem_erase hxD)
  · rw [enable_undisabled (by simpa using h1)]
    exact hw

theorem wf_set {m : MountedFS} (hw : Wf m) (du dq : List (String × Rat)) :
    Wf (m.SetIOstats du dq) := by
  unfold Wf at hw ⊢
  obtain ⟨h1, h2, -⟩ := setIOstats_maps du dq m
  rw [h1, h2]
  exact hw

theorem wf_applyOp {m : MountedFS} (hw : Wf m) (op : Op) : Wf (applyOp m op) := by
  cases op with
  | add fs p => exact wf_add hw fs p
  | remove p => exact wf_remove hw p
  | enable p => exact wf_enable hw p
  | disable p => exact wf_disable hw p
  | setIOstats du dq => exact wf_set hw du dq

theorem wf_run (ops : List Op) :
    ∀ {m : MountedFS}, Wf m → Wf (run m ops) := by
  induction ops with
  | nil => intro m hw; exact hw
  | cons op ops ih => intro m hw; exact ih (wf_applyOp hw op)

theorem wf_disjoint {m : MountedFS} (hw : Wf m) (p : String) :
    (hasPath m.available p && hasPath m.disabled p) = false := by
  obtain ⟨-, -, hdisj⟩ := List.nodup_append.1 hw
  cases ha : hasPath m.available p
  · rfl
  · cases hd : hasPath m.disabled p
    · rfl
    · exact absurd (hasPath_iff.1 hd) (hdisj (hasPath_iff.1 ha))

theorem total_add (m : MountedFS) (fs : FileSys) (p : String) :
    (m.Add fs p).1.total =
      m.total + (if (m.Add fs p).2 = none then 1 else 0) := by
  rcases add_cases m fs p with ⟨⟨e, he⟩, h1⟩ | ⟨he, -, -, h1⟩
  · rw [h1, he]; simp
  · rw [h1, he]
    simp [MountedFS.total]
    omega

theorem total_remove (m : MountedFS) (p : String) :
    (m.Remove p).1.total + (if (m.Remove p).2 = none then 1 else 0) =
      m.total := by
  by_cases h1 : hasPath m.available p = true
  · rw [remove_avail h1]
    have hl := length_erasePath h1
    have hp := length_pos_of_hasPath h1
    simp [MountedFS.total]
    omega
  · have h1' : hasPath m.available p = false := by simpa using h1
    by_cases h2 : hasPath m.disabled p = true
    · rw [remove_disabled h1' h2]
      have hl := length_erasePath h2
      have hp := length_pos_of_hasPath h2
      simp [MountedFS.total]
      omega
    · rw [remove_absent h1' (by simpa using h2)]
      simp [MountedFS.total]

theorem total_disable (m : MountedFS) (p : String) :
    (m.Disable p).1.total = m.total := by
  by_cases h1 : hasPath m.available p = true
  · obtain ⟨r, hr⟩ := exists_findPath h1
    rw [disable_avail hr]
    have hl := length_erasePath h1
    have hp := length_pos_of_hasPath h1
    simp [MountedFS.total]
    omega
  · rw [disable_unavail (by simpa using h1)]

theorem total_enable (m : MountedFS) (p : String) :
    (m.Enable p).1.total = m.total := by
  by_cases h1 : hasPath m.disabled p = true
  · obtain ⟨r, hr⟩ := exists_findPath h1
    rw [enable_disabled hr]
    have hl := length_erasePath h1
    have hp := length_pos_of_hasPath h1
    simp [MountedFS.total]
    omega
  · rw [enable_undisabled (by simpa using h1)]

theorem total_set (m : MountedFS) (du dq : List (String × Rat)) :
    (m.SetIOstats du dq).total = m.total := by
  obtain ⟨h1, h2, -⟩ := setIOstats_maps du dq m
  rw [MountedFS.total, MountedFS.total, h1, h2]

theorem succAdds_cons (m : MountedFS) (op : Op) (ops : List Op) :
    succAdds m (op :: ops) =
      (match op with
        | .add fs p => if (m.Add fs p).2 = none then 1 else 0
        | _ => 0) +
        succAdds (applyOp m op) ops := rfl

theorem succRems_cons (m : MountedFS) (op : Op) (ops : List Op) :
    succRems m (op :: ops) =
      (match op with
        | .remove p => if (m.Remove p).2 = none then 1 else 0
        | _ => 0) +
        succRems (applyOp m op) ops := rfl

theorem total_applyOp (m : MountedFS) (op : Op) :
    (applyOp m op).total +
        (match op with
          | .remove p => if (m.Remove p).2 = none then 1 else 0
          | _ => 0) =
      m.total +
        (match op with
          | .add fs p => if (m.Add fs p).2 = none then 1 else 0
          | _ => 0) := by
  cases op with
  | add fs p => simpa [applyOp] using total_add m fs p
  | remove p => simpa [applyOp] using total_remove m p
  | enable p => simp [applyOp, total_enable]
  | disable p => simp [applyOp, total_disable]
  | setIOstats du dq => simp [applyOp, total_set]

theorem run_total (ops : List Op) :
    ∀ m : MountedFS,
      (run m ops).total + succRems m ops = m.total + succAdds m ops := by
  induction ops with
  | nil => intro m; simp [run, succAdds, succRems]
  | cons op ops ih =>
    intro m
    have h1 := ih (applyOp m op)
    have h2 := total_applyOp m op
    rw [succAdds_cons, succRems_cons,
      show run m (op :: ops) = run (applyOp m op) ops from rfl]
    omega

/- ### The claims -/

/-- C1: for every path `p`, `Disable(p)` returns `(true, true)` and moves
the record from `available` to `disabled` when `p` is in `available`;
returns `(false, true)` changing nothing when `p` is already in `disabled`;
returns `(false, false)` changing nothing when `p` is in neither side; and
`Enable(p)` is symmetric: `(true, true)` moving the record when `p` is in
`disabled`, `(false, true)` when already in `available`, `(false, false)`
when absent. -/
theorem C1_disable_enable (m : MountedFS) (p : String) :
    (hasPath m.available p = true →
      (m.Disable p).2 = (true, true) ∧
        (m.Disable p).1.available = erasePath m.available p ∧
        ∃ r, findPath m.available p = some r ∧ r.path = p ∧
          (m.Disable p).1.disabled = r :: m.disabled) ∧
    (hasPath m.available p = false → hasPath m.disabled p = true →
      (m.Disable p).2 = (false, true) ∧ (m.Disable p).1 = m) ∧
    (hasPath m.available p = false → hasPath m.disabled p = false →
      (m.Disable p).2 = (false, false) ∧ (m.Disable p).1 = m) ∧
    (hasPath m.disabled p = true →
      (m.Enable p).2 = (true, true) ∧
        (m.Enable p).1.disabled = erasePath m.disabled p ∧
        ∃ r, findPath m.disabled p = some r ∧ r.path = p ∧
          (m.Enable p).1.available = r :: m.available) ∧
    (hasPath m.disabled p = false → hasPath m.available p = true →
      (m.Enable p).2 = (false, true) ∧ (m.Enable p).1 = m) ∧
    (hasPath m.disabled p = false → hasPath m.available p = false →
      (m.Enable p).2 = (false, false) ∧ (m.Enable p).1 = m) := by
  refine ⟨?_, ?_, ?_, ?_, ?_, ?_⟩
  · intro h
    obtain ⟨r, hr⟩ := exists_findPath h
    obtain ⟨-, hrp⟩ := findPath_some hr
    rw [disable_avail hr]
    exact ⟨rfl, rfl, r, hr, hrp, rfl⟩
  · intro h1 h2
    rw [disable_unavail h1, h2]
    exact ⟨rfl, rfl⟩
  · intro h1 h2
    rw [disable_unavail h1, h2]
    exact ⟨rfl, rfl⟩
  · intro h
    obtain ⟨r, hr⟩ := exists_findPath h
    obtain ⟨-, hrp⟩ := findPath_some hr
    rw [enable_disabled hr]
    exact ⟨rfl, rfl, r, hr, hrp, rfl⟩
  · intro h1 h2
    rw [enable_undisabled h1, h2]
    exact ⟨rfl, rfl⟩
  · intro h1 h2
    rw [enable_undisabled h1, h2]
    exact ⟨rfl, rfl⟩

/-- Witness for C1: the six result tuples at concrete registries holding
(or not holding) `/tmp`. -/
theorem C1_witness :
    (mfsTmp.Disable "/tmp").2 = (true, true) ∧
    ((mfsTmp.Disable "/tmp").1.Disable "/tmp").2 = (false, true) ∧
    (NewMountedFS.Disable "/tmp").2 = (false, false) ∧
    ((mfsTmp.Disable "/tmp").1.Enable "/tmp").2 = (true, true) ∧
    (mfsTmp.Enable "/tmp").2 = (false, true) ∧
    (NewMountedFS.Enable "/tmp").2 = (false, false) :=
  ⟨((C1_disable_enable mfsTmp "/tmp").1 (by decide)).1,
    (((C1_disable_enable (mfsTmp.Disable "/tmp").1 "/tmp").2.1 (by decide)
        (by decide)).1),
    (((C1_disable_enable NewMountedFS "/tmp").2.2.1 (by decide) (by decide)).1),
    (((C1_disable_enable (mfsTmp.Disable "/tmp").1 "/tmp").2.2.2.1
        (by decide)).1),
    (((C1_disable_enable mfsTmp "/tmp").2.2.2.2.1 (by decide) (by decide)).1),
    (((C1_disable_enable NewMountedFS "/tmp").2.2.2.2.2 (by decide)
        (by decide)).1)⟩

/-- C2: for every available path `p` whose cell is still zeroed (as right
after `Add`), three successive `SetIOstats` calls yield the rolling
two-sample window: first `(0, a1)/(0, b1)`, then `(a1, a2)/(b1, b2)`, then
`(a2, a3)/(b2, b3)`. -/
theorem C2_iostat_window (m : MountedFS) (p : String) (r : MountpathInfo)
    (h1 : findPath m.available p = some r)
    (h2 : List.lookup r.cell m.cells = some IostatCell.zero)
    (a1 b1 a2 b2 a3 b3 : Rat) :
    (m.SetIOstats [(p, a1)] [(p, b1)]).GetIOstats r = (⟨0, a1⟩, ⟨0, b1⟩) ∧
    ((m.SetIOstats [(p, a1)] [(p, b1)]).SetIOstats [(p, a2)]
          [(p, b2)]).GetIOstats r = (⟨a1, a2⟩, ⟨b1, b2⟩) ∧
    (((m.SetIOstats [(p, a1)] [(p, b1)]).SetIOstats [(p, a2)]
          [(p, b2)]).SetIOstats [(p, a3)] [(p, b3)]).GetIOstats r =
      (⟨a2, a3⟩, ⟨b2, b3⟩) := by
  obtain ⟨s1a, -, s1l, s1g⟩ := set_step h1 h2 a1 b1
  have h1b : findPath (m.SetIOstats [(p, a1)] [(p, b1)]).available p = some r := by
    rw [s1a]; exact h1
  obtain ⟨s2a, -, s2l, s2g⟩ := set_step h1b s1l a2 b2
  have h1c : findPath ((m.SetIOstats [(p, a1)] [(p, b1)]).SetIOstats [(p, a2)]
      [(p, b2)]).available p = some r := by
    rw [s2a]; exact h1b
  obtain ⟨-, -, -, s3g⟩ := set_step h1c s2l a3 b3
  exact ⟨s1g, s2g, s3g⟩

/-- Witness for C2: three samplings of `/tmp` in a freshly built registry. -/
theorem C2_witness :
    (mfsTmp.SetIOstats [("/tmp", 7)] [("/tmp", 13)]).GetIOstats
        ⟨"/tmp", 1, 0⟩ = (⟨0, 7⟩, ⟨0, 13⟩) ∧
    ((mfsTmp.SetIOstats [("/tmp", 7)] [("/tmp", 13)]).SetIOstats
          [("/tmp", 14)] [("/tmp", 26)]).GetIOstats ⟨"/tmp", 1, 0⟩ =
      (⟨7, 14⟩, ⟨13, 26⟩) ∧
    (((mfsTmp.SetIOstats [("/tmp", 7)] [("/tmp", 13)]).SetIOstats
          [("/tmp", 14)] [("/tmp", 26)]).SetIOstats [("/tmp", 5)]
          [("/tmp", 9)]).GetIOstats ⟨"/tmp", 1, 0⟩ = (⟨14, 5⟩, ⟨26, 9⟩) :=
  C2_iostat_window mfsTmp "/tmp" ⟨"/tmp", 1, 0⟩ (by decide) (by decide)
    7 13 14 26 5 9

/-- C3: with the `fsid` uniqueness check enabled, `Add` of a valid,
existing, unregistered path whose filesystem is already covered by an
available record fails with `DuplicateFsID` and changes nothing; after
`DisableFsIDCheck()` the flag is off and such an `Add` succeeds; `Add`
itself never changes the flag, so all subsequent `Add`s behave the same. -/
theorem C3_fsid_unique (m : MountedFS) (fs : FileSys) (p : String)
    (hres : hasReservedSeg p = false)
    (hdir : fs.isDir (canonicalize p) = true)
    (ha : hasPath m.available (canonicalize p) = false)
    (hd : hasPath m.disabled (canonicalize p) = false) :
    (m.checkFsID = true →
      m.available.any (fun r => r.fsid == fs.fsid (canonicalize p)) = true →
      (m.Add fs p).2 = some .duplicateFsID ∧ (m.Add fs p).1 = m) ∧
    (m.DisableFsIDCheck).checkFsID = false ∧
    (m.checkFsID = false → (m.Add fs p).2 = none) ∧
    (m.Add fs p).1.checkFsID = m.checkFsID := by
  refine ⟨?_, rfl, ?_, add_checkFsID m fs p⟩
  · intro hc hdup
    unfold MountedFS.Add
    rw [if_neg (by simp [hres]), if_neg (by simp [hdir]),
      if_neg (by simp [ha, hd]), if_pos (by simp [hc, hdup])]
    exact ⟨rfl, rfl⟩
  · intro hc
    unfold MountedFS.Add
    rw [if_neg (by simp [hres]), if_neg (by simp [hdir]),
      if_neg (by simp [ha, hd]), if_neg (by simp [hc])]

/-- Witness for C3: `/` shares its `fsid` with the already-added `/tmp`, so
`Add("/")` fails with `DuplicateFsID` and leaves the registry intact; after
`DisableFsIDCheck()` the same `Add` succeeds. -/
theorem C3_witness :
    ((mfsTmp.Add tmpFS "/").2 = some .duplicateFsID ∧
      (mfsTmp.Add tmpFS "/").1 = mfsTmp) ∧
    ((mfsTmp.DisableFsIDCheck).Add tmpFS "/").2 = none :=
  ⟨(C3_fsid_unique mfsTmp tmpFS "/" (by decide) (by decide) (by decide)
        (by decide)).1 (by decide) (by decide),
    (C3_fsid_unique mfsTmp.DisableFsIDCheck tmpFS "/" (by decide) (by decide)
        (by decide) (by decide)).2.2.1 rfl⟩

/-- C4: any path one of whose canonical segments is the reserved name
`local` or `cloud` — in particular any path under `/local` or `/cloud`,
any path whose final segment is `local` or `cloud`, and the names
themselves — is rejected by `Add` as an invalid mountpath with the state
unchanged, for every filesystem (so without consulting a stat: the path
need not exist on disk). -/
theorem C4_reserved (fs : FileSys) (m : MountedFS) (p : String)
    (h : hasReservedSeg p = true) :
    (m.Add fs p).2 = some .invalidPath ∧ (m.Add fs p).1 = m := by
  unfold MountedFS.Add
  rw [if_pos h]
  exact ⟨rfl, rfl⟩

/-- Witness for C4: the six test paths are rejected on a filesystem where
no path exists at all, leaving the empty registry empty. -/
theorem C4_witness :
    ((NewMountedFS.Add noFS "/local").2 = some .invalidPath ∧
      (NewMountedFS.Add noFS "/local").1 = NewMountedFS) ∧
    ((NewMountedFS.Add noFS "/cloud").2 = some .invalidPath ∧
      (NewMountedFS.Add noFS "/cloud").1 = NewMountedFS) ∧
    ((NewMountedFS.Add noFS "/tmp/local/abcd").2 = some .invalidPath ∧
      (NewMountedFS.Add noFS "/tmp/local/abcd").1 = NewMountedFS) ∧
    ((NewMountedFS.Add noFS "/tmp/cloud/abcd").2 = some .invalidPath ∧
      (NewMountedFS.Add noFS "/tmp/cloud/abcd").1 = NewMountedFS) ∧
    ((NewMountedFS.Add noFS "/tmp/abcd/local").2 = some .invalidPath ∧
      (NewMountedFS.Add noFS "/tmp/abcd/local").1 = NewMountedFS) ∧
    ((NewMountedFS.Add noFS "/tmp/abcd/cloud").2 = some .invalidPath ∧
      (NewMountedFS.Add noFS "/tmp/abcd/cloud").1 = NewMountedFS) :=
  ⟨C4_reserved noFS NewMountedFS "/local" (by decide),
    C4_reserved noFS NewMountedFS "/cloud" (by decide),
    C4_reserved noFS NewMountedFS "/tmp/local/abcd" (by decide),
    C4_reserved noFS NewMountedFS "/tmp/cloud/abcd" (by decide),
    C4_reserved noFS NewMountedFS "/tmp/abcd/local" (by decide),
    C4_reserved noFS NewMountedFS "/tmp/abcd/cloud" (by decide)⟩

/-- C5: every failed `Add` leaves the registry state entirely unchanged —
no snapshot is published on any validation failure. -/
theorem C5_failed_add_unchanged (m : MountedFS) (fs : FileSys) (p : String)
    (e : MfsError) (h : (m.Add fs p).2 = some e) : (m.Add fs p).1 = m :=
  add_fail h

/-- Witness for C5: `Add` of a nonexistent path fails leaving the empty
registry empty, and re-`Add` of `/tmp` fails leaving the one-record
registry exactly as it was (counts `(1, 0)`). -/
theorem C5_witness :
    (NewMountedFS.Add tmpFS "/nonexistingpath").1 = NewMountedFS ∧
    (mfsTmp.Add tmpFS "/tmp").1 = mfsTmp ∧
    mfsTmp.Get.1.length = 1 ∧ mfsTmp.Get.2.length = 0 :=
  ⟨C5_failed_add_unchanged NewMountedFS tmpFS "/nonexistingpath"
      .pathNotFound (by decide),
    C5_failed_add_unchanged mfsTmp tmpFS "/tmp" .alreadyRegistered (by decide),
    by decide, by decide⟩

/-- C6: `Remove(p)` succeeds and deletes the record when `p` is in
`available`; succeeds, deletes it from `disabled` and decrements the
disabled count when `p` is in `disabled`; and fails leaving both sides
unchanged when `p` is in neither. -/
theorem C6_remove (m : MountedFS) (p : String) :
    (hasPath m.available p = true →
      m.Remove p = ({ m with available := erasePath m.available p }, none) ∧
        (m.Remove p).1.available.length = m.available.length - 1) ∧
    (hasPath m.available p = false → hasPath m.disabled p = true →
      m.Remove p = ({ m with disabled := erasePath m.disabled p }, none) ∧
        (m.Remove p).1.disabled.length = m.disabled.length - 1 ∧
        0 < m.disabled.length) ∧
    (hasPath m.available p = false → hasPath m.disabled p = false →
      m.Remove p = (m, some .notRegistered)) := by
  refine ⟨?_, ?_, ?_⟩
  · intro h
    refine ⟨remove_avail h, ?_⟩
    rw [remove_avail h]
    exact length_erasePath h
  · intro h1 h2
    refine ⟨remove_disabled h1 h2, ?_, length_pos_of_hasPath h2⟩
    rw [remove_disabled h1 h2]
    exact length_erasePath h2
  · intro h1 h2
    exact remove_absent h1 h2

/-- Witness for C6: removing `/tmp` while available, removing it while
disabled (count `1 → 0`), and removing it from an empty registry. -/
theorem C6_witness :
    mfsTmp.Remove "/tmp" =
      ({ mfsTmp with available := erasePath mfsTmp.available "/tmp" }, none) ∧
    ((mfsTmp.Disable "/tmp").1.Remove "/tmp").1.disabled.length =
        (mfsTmp.Disable "/tmp").1.disabled.length - 1 ∧
    NewMountedFS.Remove "/tmp" = (NewMountedFS, some .notRegistered) :=
  ⟨((C6_remove mfsTmp "/tmp").1 (by decide)).1,
    (((C6_remove (mfsTmp.Disable "/tmp").1 "/tmp").2.1 (by decide)
        (by decide)).2.1),
    (C6_remove NewMountedFS "/tmp").2.2 (by decide) (by decide)⟩

/-- C7: after every sequence of operations from a fresh registry, the two
maps returned by `Get` have disjoint key sets — no path is simultaneously
available and disabled. -/
theorem C7_disjoint (ops : List Op) (p : String) :
    (hasPath (run NewMountedFS ops).Get.1 p &&
        hasPath (run NewMountedFS ops).Get.2 p) = false :=
  wf_disjoint (wf_run ops wf_new) p

/-- C8: along every operation sequence from a fresh registry, the total
record count `|available| + |disabled|` observed via `Get` equals the
number of successful `Add`s minus the number of successful `Remove`s, and
`Enable`/`Disable` never change that total. -/
theorem C8_total (ops : List Op) :
    (run NewMountedFS ops).Get.1.length + (run NewMountedFS ops).Get.2.length =
        succAdds NewMountedFS ops - succRems NewMountedFS ops ∧
      succRems NewMountedFS ops ≤ succAdds NewMountedFS ops ∧
      ∀ (m : MountedFS) (p : String),
        (m.Enable p).1.total = m.total ∧ (m.Disable p).1.total = m.total := by
  have h := run_total ops NewMountedFS
  rw [show NewMountedFS.total = 0 from rfl,
    show (run NewMountedFS ops).total =
      (run NewMountedFS ops).Get.1.length +
        (run NewMountedFS ops).Get.2.length from rfl] at h
  exact ⟨by omega, by omega, fun m p => ⟨total_enable m p, total_disable m p⟩⟩

/-- C9: a record handle obtained from `Get`'s available map stays live —
a `SetIOstats` issued after the `Get` is visible through `GetIOstats` on
the previously obtained handle, because the handle addresses the shared
cell rather than a copy. -/
theorem C9_live_handle (m : MountedFS) (p : String) (r : MountpathInfo)
    (c : IostatCell) (u q : Rat) (h1 : findPath m.Get.1 p = some r)
    (h2 : List.lookup r.cell m.cells = some c) :
    (m.SetIOstats [(p, u)] [(p, q)]).GetIOstats r =
      (⟨c.util.Curr, u⟩, ⟨c.quel.Curr, q⟩) :=
  (set_step h1 h2 u q).2.2.2

/-- Witness for C9: the `/tmp` handle fetched before a `SetIOstats` call
reads the freshly written samples. -/
theorem C9_witness :
    (mfsTmp.SetIOstats [("/tmp", 3)] [("/tmp", 4)]).GetIOstats
        ⟨"/tmp", 1, 0⟩ = (⟨0, 3⟩, ⟨0, 4⟩) :=
  C9_live_handle mfsTmp "/tmp" ⟨"/tmp", 1, 0⟩ IostatCell.zero 3 4 (by decide)
    (by decide)

/-- C10 counterexample: in `"10000000000000000000%"` the leading digits are
followed by the suffix `"%"` and their value is at least 100, so the claim
demands `ErrQuantityPercent`; but the digits overflow Go's 64-bit `int`, so
`strconv.Atoi` fails and `ParseQuantity` returns `ErrQuantityUsage`. -/
theorem C10_counterexample :
    100 ≤ digitsToNat ((stripSpaces "10000000000000000000%").toList.takeWhile
        Char.isDigit) ∧
    (stripSpaces "10000000000000000000%").toList.drop
        ((stripSpaces "10000000000000000000%").toList.takeWhile
            Char.isDigit).length = ['%'] ∧
    (ParseQuantity szStub "10000000000000000000%").2 = some .usage ∧
    (ParseQuantity szStub "10000000000000000000%").2 ≠ some .percent :=
  ⟨by decide, by decide, by decide, by decide⟩

/-- C10 (amended): on the space-stripped input, when the leading digits are
followed by exactly `"%"` and their value `v` fits Go's 64-bit `int`,
`ParseQuantity` returns a percent quantity with value `v` iff
`0 < v < 100`, and `ErrQuantityPercent` when `v = 0` or `v ≥ 100`; digits
that overflow the 64-bit `int` yield `ErrQuantityUsage` instead, as do an
empty suffix after the digits and a missing digit prefix. -/
theorem C10_parse_quantity (parseSize : String → Except QuantityError Int)
    (s : String) (cs number : List Char) (v : Nat)
    (hcs : cs = (stripSpaces s).toList)
    (hnum : number = cs.takeWhile Char.isDigit)
    (hv : v = digitsToNat number) :
    (number = [] → ParseQuantity parseSize s = (⟨"", 0⟩, some .usage)) ∧
    (number ≠ [] → int64Max < v →
      ParseQuantity parseSize s = (⟨"", 0⟩, some .usage)) ∧
    (number ≠ [] → v ≤ int64Max →
      (cs.drop number.length = [] →
        ParseQuantity parseSize s = (⟨"", v⟩, some .usage)) ∧
      (cs.drop number.length = ['%'] →
        (0 < v ∧ v < 100 →
          ParseQuantity parseSize s = (⟨QuantityPercent, v⟩, none)) ∧
        (v = 0 ∨ 100 ≤ v →
          ParseQuantity parseSize s =
            (⟨QuantityPercent, v⟩, some .percent)))) := by
  subst hcs
  subst hnum
  subst hv
  refine ⟨?_, ?_, ?_⟩
  · intro h
    simp only [ParseQuantity]
    rw [h]
    rfl
  · intro hne hgt
    have hA : goAtoi ((stripSpaces s).toList.takeWhile Char.isDigit) = none := by
      rw [goAtoi, if_neg hne, if_neg (by omega)]
    simp only [ParseQuantity, hA]
  · intro hne hle
    have hA : goAtoi ((stripSpaces s).toList.takeWhile Char.isDigit) =
        some (digitsToNat ((stripSpaces s).toList.takeWhile Char.isDigit)) := by
      rw [goAtoi, if_neg hne, if_pos hle]
    refine ⟨?_, ?_⟩
    · intro hdrop
      have hlen : (stripSpaces s).toList.length ≤
          ((stripSpaces s).toList.takeWhile Char.isDigit).length :=
        List.drop_eq_nil_iff.1 hdrop
      simp only [ParseQuantity, hA]
      rw [if_pos hlen]
    · intro hdrop
      have hlen : ¬ (stripSpaces s).toList.length ≤
          ((stripSpaces s).toList.takeWhile Char.isDigit).length := by
        intro hl
        rw [List.drop_eq_nil_iff.2 hl] at hdrop
        cases hdrop
      refine ⟨?_, ?_⟩
      · intro hr
        simp only [ParseQuantity, hA]
        rw [if_neg hlen, if_pos hdrop, if_neg (by omega)]
      · intro hr
        simp only [ParseQuantity, hA]
        rw [if_neg hlen, if_pos hdrop, if_pos hr]

/-- Witness for C10: a percent in range, a percent at each out-of-range
boundary, digits with no suffix, and an input with no leading digits. -/
theorem C10_witness :
    ParseQuantity szStub "50%" = (⟨QuantityPercent, 50⟩, none) ∧
    ParseQuantity szStub "100%" = (⟨QuantityPercent, 100⟩, some .percent) ∧
    ParseQuantity szStub "0%" = (⟨QuantityPercent, 0⟩, some .percent) ∧
    ParseQuantity szStub "50" = (⟨"", 50⟩, some .usage) ∧
    ParseQuantity szStub "abc" = (⟨"", 0⟩, some .usage) :=
  ⟨(((C10_parse_quantity szStub "50%" _ _ _ rfl rfl rfl).2.2 (by decide)
        (by decide)).2 (by decide)).1 (by decide),
    (((C10_parse_quantity szStub "100%" _ _ _ rfl rfl rfl).2.2 (by decide)
        (by decide)).2 (by decide)).2 (by decide),
    (((C10_parse_quantity szStub "0%" _ _ _ rfl rfl rfl).2.2 (by decide)
        (by decide)).2 (by decide)).2 (by decide),
    ((C10_parse_quantity szStub "50" _ _ _ rfl rfl rfl).2.2 (by decide)
        (by decide)).1 (by decide),
    (C10_parse_quantity szStub "abc" _ _ _ rfl rfl rfl).1 (by decide)⟩

end AIStore
